import Mathlib

/-!
Shallow embedding of the reactive-stream pipelines of
`src/app/app.module.ts` (component `RxjsOperatorComponent`).  The component
only composes RxJS combinators (`of`, `from`, `map`, `filter`, `concat`,
`interval`, `take`, `merge`, `catchError`); the combinators themselves are
library code outside the repository, so their semantics are modelled from
the specification as timed event traces, and the concrete demo pipelines of
the component are embedded on top of them.
-/

namespace RxDemo

variable {ε α β : Type}

/-- Terminal event of a stream subscription: normal completion or an error. -/
inductive Term (ε : Type) where
  | complete : Term ε
  | error (e : ε) : Term ε
  deriving DecidableEq, Repr

/-- Modelled from the spec: the observable behaviour of one full
subscription to a finite stream — the timed values delivered via onNext
(milliseconds after subscription paired with the value, in delivery order),
the time of the terminal event, and the terminal event itself.  A stream
delivers exactly one terminal event per subscription. -/
structure FinTrace (ε α : Type) where
  vals : List (Nat × α)
  tTerm : Nat
  term : Term ε
  deriving DecidableEq, Repr

/-- Subscriber callback invocations, in the order the subscriber sees them. -/
inductive CB (ε α : Type) where
  | onNext (v : α) : CB ε α
  | onError (e : ε) : CB ε α
  | onComplete : CB ε α
  deriving DecidableEq, Repr

/-- Whether a callback is a terminal callback (onError or onComplete). -/
def CB.isTerminal : CB ε α → Bool
  | .onNext _ => false
  | .onError _ => true
  | .onComplete => true

/-- The full callback sequence a subscriber observes for a finite trace:
each value via onNext in order, then the single terminal callback. -/
def deliver (S : FinTrace ε α) : List (CB ε α) :=
  S.vals.map (fun x => CB.onNext x.2) ++
    [match S.term with
     | Term.complete => CB.onComplete
     | Term.error e => CB.onError e]

/-- Modelled from the spec: RxJS `of(v1, ..., vn)` (the spec's emitValues)
emits the given values synchronously in argument order at subscription
time, then completes; there is no error path. -/
def ofT (vs : List α) : FinTrace ε α :=
  ⟨vs.map (fun v => (0, v)), 0, Term.complete⟩

/-- Result of mapping a possibly-throwing function over a timed value list:
the mapped prefix before the first throw, and, when the function throws,
the time and error of the first throw. -/
def mapVals (f : α → Except ε β) : List (Nat × α) → List (Nat × β) × Option (Nat × ε)
  | [] => ([], none)
  | x :: xs =>
    match f x.2 with
    | Except.error e => ([], some (x.1, e))
    | Except.ok b =>
      let r := mapVals f xs
      ((x.1, b) :: r.1, r.2)

/-- Modelled from the spec: RxJS `map` (the spec's transform) applies f to
each upstream value; if f throws, the stream fails with that error at that
point and forwards no further values; otherwise the upstream terminal event
is forwarded unchanged. -/
def mapT (f : α → Except ε β) (S : FinTrace ε α) : FinTrace ε β :=
  match mapVals f S.vals with
  | (bs, none) => ⟨bs, S.tTerm, S.term⟩
  | (bs, some te) => ⟨bs, te.1, Term.error te.2⟩

/-- Modelled from the spec: RxJS `filter` (the spec's select) keeps only the
values satisfying the predicate, preserving order, and forwards the
upstream terminal event unchanged. -/
def filterT (p : α → Bool) (S : FinTrace ε α) : FinTrace ε α :=
  ⟨S.vals.filter (fun x => p x.2), S.tTerm, S.term⟩

/-- Modelled from the spec: RxJS `concat` (the spec's concatSequential)
subscribes to A; if A fails, the result is exactly A's trace and B is never
subscribed; if A completes, B is subscribed at that moment, so B's events
are shifted by A's completion time, and B supplies the terminal event. -/
def concatT (A B : FinTrace ε α) : FinTrace ε α :=
  match A.term with
  | Term.error _ => A
  | Term.complete =>
    ⟨A.vals ++ B.vals.map (fun x => (A.tTerm + x.1, x.2)),
     A.tTerm + B.tTerm, B.term⟩

/-- Modelled from the spec: RxJS `catchError` (the spec's
catchAndSubstitute) passes a completing upstream through unchanged; on an
upstream error it subscribes to the handler's replacement stream at the
moment of the error and forwards its values and terminal event instead. -/
def catchT (S : FinTrace ε α) (h : ε → FinTrace ε α) : FinTrace ε α :=
  match S.term with
  | Term.complete => S
  | Term.error e =>
    ⟨S.vals ++ (h e).vals.map (fun x => (S.tTerm + x.1, x.2)),
     S.tTerm + (h e).tTerm, (h e).term⟩

/-- Interleaving of two time-sorted timed value lists by emission time,
ties broken in favour of the first (earlier-registered) source: before each
element x of the first list, exactly the still-pending elements of the
second list that are strictly earlier than x are emitted. -/
def mergeVals : List (Nat × α) → List (Nat × α) → List (Nat × α)
  | [], ys => ys
  | x :: xs, ys =>
    ys.takeWhile (fun y => y.1 < x.1) ++
      x :: mergeVals xs (ys.dropWhile (fun y => y.1 < x.1))

/-- Values of a timed list occurring strictly before time t (a subscription
cancelled at time t delivers none of these sources' later values). -/
def cutLt (t : Nat) (vs : List (Nat × α)) : List (Nat × α) :=
  vs.filter (fun x => x.1 < t)

/-- Values of a timed list occurring no later than time t. -/
def cutLe (t : Nat) (vs : List (Nat × α)) : List (Nat × α) :=
  vs.filter (fun x => x.1 ≤ t)

/-- Modelled from the spec: RxJS `merge` (the spec's mergeConcurrent)
subscribes to both inputs, interleaves their values by emission time (ties
by registration order), completes once both inputs complete, and fails as
soon as either input fails, cancelling the other input at that moment: the
failing input's own values (which precede its error) are kept up to the
error time, the cancelled input contributes only values strictly before it. -/
def mergeT (A B : FinTrace ε α) : FinTrace ε α :=
  match A.term, B.term with
  | Term.complete, Term.complete =>
    ⟨mergeVals A.vals B.vals, max A.tTerm B.tTerm, Term.complete⟩
  | Term.error e, Term.complete =>
    ⟨mergeVals (cutLe A.tTerm A.vals) (cutLt A.tTerm B.vals), A.tTerm, Term.error e⟩
  | Term.complete, Term.error e =>
    ⟨mergeVals (cutLt B.tTerm A.vals) (cutLe B.tTerm B.vals), B.tTerm, Term.error e⟩
  | Term.error ea, Term.error eb =>
    if B.tTerm < A.tTerm then
      ⟨mergeVals (cutLt B.tTerm A.vals) (cutLe B.tTerm B.vals), B.tTerm, Term.error eb⟩
    else
      ⟨mergeVals (cutLe A.tTerm A.vals) (cutLt A.tTerm B.vals), A.tTerm, Term.error ea⟩

/-- Modelled from the spec: a stream's full-subscription behaviour — either
finitely many timed values followed by a terminal event, or an infinite
emission schedule (the k-th emission's time and value) that never
terminates on its own. -/
inductive RTrace (ε α : Type) where
  | fin (F : FinTrace ε α) : RTrace ε α
  | inf (emit : Nat → Nat × α) : RTrace ε α

/-- Time and terminal event of a stream, when it has one; an infinite
stream never completes or errors on its own. -/
def RTrace.terminal? : RTrace ε α → Option (Nat × Term ε)
  | .fin F => some (F.tTerm, F.term)
  | .inf _ => none

/-- Modelled from the spec: RxJS `take(n)` forwards at most the first n
upstream values.  With n = 0 it completes immediately without subscribing
to the source at all; once the n-th value is delivered it synthesizes a
completion at that moment and cancels the upstream; if a finite upstream
ends before n values, its own terminal event is forwarded unchanged. -/
def takeT : RTrace ε α → Nat → FinTrace ε α
  | _, 0 => ⟨[], 0, Term.complete⟩
  | .inf emit, Nat.succ n =>
    ⟨(List.range (n + 1)).map emit, (emit n).1, Term.complete⟩
  | .fin F, Nat.succ n =>
    if n + 1 ≤ F.vals.length then
      ⟨F.vals.take (n + 1), (F.vals.map Prod.fst).getD n 0, Term.complete⟩
    else F

/-- Emission schedule of RxJS `interval(p)` (the spec's timedInterval):
the k-th emission carries value k and occurs p milliseconds after the
previous one, the first one p milliseconds after subscription, so value k
is delivered at time (k + 1) * p. -/
def intervalEmit (p : Nat) : Nat → Nat × Nat :=
  fun k => ((k + 1) * p, k)

/-- Modelled from the spec: RxJS `interval(p)` as an infinite stream; it
never completes or errors on its own. -/
def intervalTr (p : Nat) : RTrace ε Nat :=
  RTrace.inf (intervalEmit p)

/-- Modelled from the spec: the values delivered when the subscriber
cancels the subscription immediately upon receiving emission number k —
exactly emissions 0 through k, and nothing afterwards. -/
def cancelAfter (emit : Nat → Nat × α) (k : Nat) : List (Nat × α) :=
  (List.range (k + 1)).map emit

/-- A settlement attempt registered by a promise executor. -/
inductive Settle (ε α : Type) where
  | resolve (v : α) : Settle ε α
  | reject (e : ε) : Settle ε α
  deriving DecidableEq, Repr

/-- Modelled from the spec: a promise settles with its first settlement
attempt and ignores all later ones.  Attempts are listed in executor
registration order, each with the time at which it would run; the earliest
time wins, ties broken by registration order. -/
def firstSettle : List (Nat × Settle ε α) → Option (Nat × Settle ε α)
  | [] => none
  | x :: xs =>
    match firstSettle xs with
    | none => some x
    | some y => if y.1 < x.1 then some y else some x

/-- Modelled from the spec: RxJS `from(promise)` emits the resolved value
once and completes, or fails with the rejection reason; a promise that
never settles yields a stream that never emits, represented as none. -/
def fromPromise (attempts : List (Nat × Settle ε α)) : Option (FinTrace ε α) :=
  match firstSettle attempts with
  | none => none
  | some (t, Settle.resolve v) => some ⟨[(t, v)], t, Term.complete⟩
  | some (t, Settle.reject e) => some ⟨[], t, Term.error e⟩

/-- The user record resolved by `fetchUserData` (app.module.ts, lines
87-94). -/
structure User where
  id : Nat
  name : String
  deriving DecidableEq, Repr

/-- The settlement attempts of the promise built in `fetchUserData`
(app.module.ts, lines 88-93): the executor schedules
resolve({id: 1, name: 'John Doe'}) via setTimeout after 1000 ms and calls
reject('Failed to fetch user data') synchronously, i.e. at time 0. -/
def fetchUserData : List (Nat × Settle String User) :=
  [(1000, Settle.resolve ⟨1, "John Doe"⟩),
   (0, Settle.reject "Failed to fetch user data")]

/-- Values flowing through the catchError demo: JavaScript numbers before
the handler kicks in, a JavaScript string afterwards. -/
inductive JSVal where
  | num (n : Int) : JSVal
  | str (s : String) : JSVal
  deriving DecidableEq, Repr

/-- The throwing transform of the catchError demo (app.module.ts, lines
123-126): throws 'Error at 2' when the input is 2, otherwise returns the
input unchanged. -/
def throwAt2 (v : JSVal) : Except String JSVal :=
  if v = JSVal.num 2 then Except.error "Error at 2" else Except.ok v

/-- The catchError demo pipeline (app.module.ts, lines 122-128):
of(1, 2, 3) piped through the throwing map and
catchError(err => of('caught: ' + err)). -/
def catchDemo : FinTrace String JSVal :=
  catchT (mapT throwAt2 (ofT [JSVal.num 1, JSVal.num 2, JSVal.num 3]))
    (fun err => ofT [JSVal.str ("caught: " ++ err)])

/-- The RxjsOperatorCall pipeline (app.module.ts, lines 47-51):
of(1, 2, 3, 4, 5) piped through map(val => val * 10) and
filter(val => val > 3). -/
def operatorCallDemo : FinTrace String Int :=
  filterT (fun v => decide (v > 3))
    (mapT (fun v : Int => Except.ok (v * 10)) (ofT [1, 2, 3, 4, 5]))

/-- The merge demo (app.module.ts, lines 117-119):
merge(interval(1000).pipe(take(2)), interval(500).pipe(take(2))). -/
def mergeDemo : FinTrace String Nat :=
  mergeT (takeT (intervalTr 1000) 2) (takeT (intervalTr 500) 2)

/-- C1: the catchError demo pipeline delivers exactly onNext 1, then
onNext 'caught: Error at 2', then completes normally, and the value 3 is
never emitted. -/
theorem c1_catchDemo :
    deliver catchDemo =
      [CB.onNext (JSVal.num 1), CB.onNext (JSVal.str "caught: Error at 2"),
        CB.onComplete] ∧
    CB.onNext (JSVal.num 3) ∉ deliver catchDemo := by
  constructor
  · decide
  · decide

/-- C9: the promise in `fetchUserData` rejects synchronously while resolve
is only scheduled 1000 ms later, so the promise settles rejected and the
stream built from it delivers only onError 'Failed to fetch user data';
onNext and onComplete never fire. -/
theorem c9_fetchUserData :
    firstSettle fetchUserData =
      some (0, Settle.reject "Failed to fetch user data") ∧
    (fromPromise fetchUserData).map deliver =
      some [CB.onError "Failed to fetch user data"] := by
  constructor
  · decide
  · decide

/-- C10: in RxjsOperatorCall every mapped value 10, 20, 30, 40, 50 exceeds
3, so the filter removes nothing and a full subscription delivers exactly
10, 20, 30, 40, 50 and then completes. -/
theorem c10_operatorCall :
    deliver operatorCallDemo =
      [CB.onNext 10, CB.onNext 20, CB.onNext 30, CB.onNext 40, CB.onNext 50,
        CB.onComplete] ∧
    filterT (fun v => decide (v > 3))
        (mapT (fun v : Int => Except.ok (v * 10))
          (ofT [1, 2, 3, 4, 5] : FinTrace String Int)) =
      mapT (fun v : Int => Except.ok (v * 10))
        (ofT [1, 2, 3, 4, 5] : FinTrace String Int) := by
  constructor
  · decide
  · decide

/-- C6 counterexample: the merge demo emits its four values at the 500,
1000, 1000 and 2000 ms marks; contrary to the claim there is no emission at
the 1500 ms mark. -/
theorem c6_counterexample :
    mergeDemo.vals.map Prod.fst = [500, 1000, 1000, 2000] ∧
    mergeDemo.vals.map Prod.fst ≠ [500, 1000, 1500, 2000] := by
  constructor
  · decide
  · decide

/-- C2: for every finite value list V, emitValues(V) delivers exactly the
values of V via onNext in argument order, followed by onComplete, and
onError never fires. -/
theorem c2_emitValues (V : List α) :
    deliver (ofT V : FinTrace String α) = V.map CB.onNext ++ [CB.onComplete] ∧
    ∀ e, CB.onError e ∉ deliver (ofT V : FinTrace String α) := by
  constructor
  · simp [deliver, ofT, List.map_map, Function.comp]
  · intro e
    simp [deliver, ofT, List.map_map, Function.comp]

/-- C2 witness: emitValues over the concrete list [1, 2]. -/
theorem c2_emitValues_witness :
    deliver (ofT [1, 2] : FinTrace String Nat) =
      [CB.onNext 1, CB.onNext 2, CB.onComplete] ∧
    CB.onError "boom" ∉ deliver (ofT [1, 2] : FinTrace String Nat) :=
  ⟨(c2_emitValues [1, 2]).1, (c2_emitValues [1, 2]).2 "boom"⟩

/-- C3: when A completes normally, concat(A, B) emits all of A's values (at
their own times) before any of B's values (shifted to after A's completion)
and takes its terminal event from B; when A fails, the result is exactly
A's own trace, so B contributes nothing — it is never subscribed — and A's
failure is the terminal event delivered downstream. -/
theorem c3_concat (A B : FinTrace ε α) :
    (A.term = Term.complete →
      (concatT A B).vals =
        A.vals ++ B.vals.map (fun x => (A.tTerm + x.1, x.2)) ∧
      (concatT A B).term = B.term) ∧
    (∀ e, A.term = Term.error e → concatT A B = A) := by
  obtain ⟨va, ta, tA⟩ := A
  cases tA <;> simp [concatT]

/-- C3 witness: concat of two concrete completing streams, and concat with
a concrete failing first stream. -/
theorem c3_concat_witness :
    ((⟨[(0, 1)], 0, Term.complete⟩ : FinTrace String Nat).term = Term.complete ∧
      (concatT (⟨[(0, 1)], 0, Term.complete⟩ : FinTrace String Nat)
          ⟨[(0, 2)], 0, Term.complete⟩).vals = [(0, 1), (0, 2)]) ∧
    ((⟨[(0, 1)], 3, Term.error "boom"⟩ : FinTrace String Nat).term =
        Term.error "boom" ∧
      concatT (⟨[(0, 1)], 3, Term.error "boom"⟩ : FinTrace String Nat)
          ⟨[(0, 2)], 0, Term.complete⟩ = ⟨[(0, 1)], 3, Term.error "boom"⟩) := by
  constructor
  · exact ⟨rfl, by simpa using ((c3_concat _ _).1 rfl).1⟩
  · exact ⟨rfl, (c3_concat _ _).2 "boom" rfl⟩

/-- C4: take(S, n) emits at most n values; if a finite S has fewer than n
values, take(S, n) is S's own trace, terminal event included, unchanged;
and take(S, 0) completes immediately with zero values, independently of S. -/
theorem c4_take (S : RTrace ε α) (n : Nat) :
    (takeT S n).vals.length ≤ n ∧
    (∀ F : FinTrace ε α, S = RTrace.fin F → F.vals.length < n → takeT S n = F) ∧
    takeT S 0 = ⟨[], 0, Term.complete⟩ := by
  have h0 : takeT S 0 = (⟨[], 0, Term.complete⟩ : FinTrace ε α) := by
    cases S <;> rfl
  refine ⟨?_, ?_, h0⟩
  · cases S with
    | inf emit =>
      cases n with
      | zero => simp [takeT]
      | succ m => simp [takeT]
    | fin F =>
      cases n with
      | zero => simp [takeT]
      | succ m =>
        by_cases hle : m + 1 ≤ F.vals.length
        · simp [takeT, hle, List.length_take]
        · simp [takeT, hle]
          omega
  · intro F hS hlen
    subst hS
    cases n with
    | zero => omega
    | succ m =>
      have hle : ¬ (m + 1 ≤ F.vals.length) := by omega
      simp [takeT, hle]

/-- C4 witness: take(S, 3) on a concrete finite stream with a single value
and an error terminal forwards that stream unchanged. -/
theorem c4_take_witness :
    ((⟨[(0, 7)], 1, Term.error "boom"⟩ : FinTrace String Nat).vals.length < 3) ∧
    takeT (RTrace.fin (⟨[(0, 7)], 1, Term.error "boom"⟩ : FinTrace String Nat)) 3 =
      ⟨[(0, 7)], 1, Term.error "boom"⟩ :=
  ⟨by decide,
    (c4_take (RTrace.fin ⟨[(0, 7)], 1, Term.error "boom"⟩) 3).2.1 _ rfl (by decide)⟩

/-- C8: interval(p) emits value k as its k-th emission, no earlier than
k * p time units after subscription (in fact at (k + 1) * p); the stream
has no terminal event of its own; and a subscriber that cancels immediately
upon receiving value k never receives value k + 1. -/
theorem c8_interval (p k : Nat) :
    (intervalEmit p k).2 = k ∧
    k * p ≤ (intervalEmit p k).1 ∧
    (intervalTr p : RTrace String Nat).terminal? = none ∧
    ∀ x ∈ cancelAfter (intervalEmit p) k, x.2 ≠ k + 1 := by
  refine ⟨rfl, ?_, rfl, ?_⟩
  · exact Nat.mul_le_mul_right p (Nat.le_succ k)
  · intro x hx
    simp only [cancelAfter, List.mem_map, List.mem_range] at hx
    obtain ⟨i, hi, rfl⟩ := hx
    simp [intervalEmit]
    omega

/-- C8 witness: for interval(10), the subscriber that cancels upon value 2
has received the emission (30, 2), whose value is not 3. -/
theorem c8_interval_witness :
    (30, 2) ∈ cancelAfter (intervalEmit 10) 2 ∧ ((30, 2) : Nat × Nat).2 ≠ 2 + 1 :=
  ⟨by decide, (c8_interval 10 2).2.2.2 (30, 2) (by decide)⟩

/-- Membership in a time-interleaving is membership in either input list. -/
theorem mem_mergeVals (x : Nat × α) (xs : List (Nat × α)) :
    ∀ ys : List (Nat × α), x ∈ mergeVals xs ys ↔ x ∈ xs ∨ x ∈ ys := by
  induction xs with
  | nil => intro ys; simp [mergeVals]
  | cons a xs ih =>
    intro ys
    have hys :
        ys.takeWhile (fun y => y.1 < a.1) ++ ys.dropWhile (fun y => y.1 < a.1) = ys :=
      List.takeWhile_append_dropWhile (fun y => y.1 < a.1) ys
    constructor
    · intro hx
      simp only [mergeVals, List.mem_append, List.mem_cons, ih] at hx
      rcases hx with h | h | h | h
      · right; rw [← hys]; exact List.mem_append.2 (Or.inl h)
      · exact Or.inl (List.mem_cons.2 (Or.inl h))
      · exact Or.inl (List.mem_cons.2 (Or.inr h))
      · right; rw [← hys]; exact List.mem_append.2 (Or.inr h)
    · intro hx
      simp only [mergeVals, List.mem_append, List.mem_cons, ih]
      rcases hx with h | h
      · rcases List.mem_cons.1 h with h | h
        · exact Or.inr (Or.inl h)
        · exact Or.inr (Or.inr (Or.inl h))
      · rw [← hys] at h
        rcases List.mem_append.1 h with h | h
        · exact Or.inl h
        · exact Or.inr (Or.inr (Or.inr h))

/-- C5: merge(A, B) completes exactly when both A and B complete; when one
input fails and the other completes, the merged stream fails with that
error at the failure time, and every delivered value is either a value of
the failing input or a value of the other input from strictly before the
cancellation; when both fail, the merged stream fails and no value is
delivered after its failure time. -/
theorem c5_merge (A B : FinTrace ε α) :
    ((mergeT A B).term = Term.complete ↔
      (A.term = Term.complete ∧ B.term = Term.complete)) ∧
    (∀ e, A.term = Term.error e → B.term = Term.complete →
      (mergeT A B).term = Term.error e ∧ (mergeT A B).tTerm = A.tTerm ∧
      ∀ x ∈ (mergeT A B).vals, x ∈ A.vals ∨ (x ∈ B.vals ∧ x.1 < A.tTerm)) ∧
    (∀ e, B.term = Term.error e → A.term = Term.complete →
      (mergeT A B).term = Term.error e ∧ (mergeT A B).tTerm = B.tTerm ∧
      ∀ x ∈ (mergeT A B).vals, x ∈ B.vals ∨ (x ∈ A.vals ∧ x.1 < B.tTerm)) ∧
    (∀ ea eb, A.term = Term.error ea → B.term = Term.error eb →
      (∃ e, (mergeT A B).term = Term.error e) ∧
      ∀ x ∈ (mergeT A B).vals, x.1 ≤ (mergeT A B).tTerm) := by
  obtain ⟨va, ta, tA⟩ := A
  obtain ⟨vb, tb, tB⟩ := B
  refine ⟨?_, ?_, ?_, ?_⟩
  · cases tA <;> cases tB <;> simp [mergeT]
    split <;> simp
  · intro e hA hB
    cases hA
    cases hB
    refine ⟨rfl, rfl, ?_⟩
    intro x hx
    rw [show (mergeT ⟨va, ta, Term.error e⟩ ⟨vb, tb, Term.complete⟩).vals =
        mergeVals (cutLe ta va) (cutLt ta vb) from rfl] at hx
    rcases (mem_mergeVals x _ _).1 hx with h | h
    · exact Or.inl (List.mem_filter.1 h).1
    · have h' := List.mem_filter.1 h
      exact Or.inr ⟨h'.1, by simpa using h'.2⟩
  · intro e hB hA
    cases hA
    cases hB
    refine ⟨rfl, rfl, ?_⟩
    intro x hx
    rw [show (mergeT ⟨va, ta, Term.complete⟩ ⟨vb, tb, Term.error e⟩).vals =
        mergeVals (cutLt tb va) (cutLe tb vb) from rfl] at hx
    rcases (mem_mergeVals x _ _).1 hx with h | h
    · have h' := List.mem_filter.1 h
      exact Or.inr ⟨h'.1, by simpa using h'.2⟩
    · exact Or.inl (List.mem_filter.1 h).1
  · intro ea eb hA hB
    cases hA
    cases hB
    by_cases hlt : tb < ta
    · refine ⟨⟨eb, by simp [mergeT, hlt]⟩, ?_⟩
      intro x hx
      rw [show (mergeT ⟨va, ta, Term.error ea⟩ ⟨vb, tb, Term.error eb⟩).vals =
          mergeVals (cutLt tb va) (cutLe tb vb) from by simp [mergeT, hlt]] at hx
      rw [show (mergeT ⟨va, ta, Term.error ea⟩ ⟨vb, tb, Term.error eb⟩).tTerm = tb
          from by simp [mergeT, hlt]]
      rcases (mem_mergeVals x _ _).1 hx with h | h
      · have h' := (List.mem_filter.1 h).2
        have : x.1 < tb := by simpa using h'
        omega
      · have h' := (List.mem_filter.1 h).2
        simpa using h'
    · refine ⟨⟨ea, by simp [mergeT, hlt]⟩, ?_⟩
      intro x hx
      rw [show (mergeT ⟨va, ta, Term.error ea⟩ ⟨vb, tb, Term.error eb⟩).vals =
          mergeVals (cutLe ta va) (cutLt ta vb) from by simp [mergeT, hlt]] at hx
      rw [show (mergeT ⟨va, ta, Term.error ea⟩ ⟨vb, tb, Term.error eb⟩).tTerm = ta
          from by simp [mergeT, hlt]]
      rcases (mem_mergeVals x _ _).1 hx with h | h
      · have h' := (List.mem_filter.1 h).2
        simpa using h'
      · have h' := (List.mem_filter.1 h).2
        have : x.1 < ta := by simpa using h'
        omega

/-- C5 witness: merging a concrete failing stream (error at 2 ms) with a
concrete completing stream (values at 1 ms and 3 ms): the merge fails at
2 ms and each delivered value is either from the failing stream or an
early-enough value of the cancelled one. -/
theorem c5_merge_witness :
    (⟨[(1, 10)], 2, Term.error "boom"⟩ : FinTrace String Nat).term =
        Term.error "boom" ∧
    (⟨[(1, 20), (3, 30)], 3, Term.complete⟩ : FinTrace String Nat).term =
        Term.complete ∧
    (mergeT (⟨[(1, 10)], 2, Term.error "boom"⟩ : FinTrace String Nat)
        ⟨[(1, 20), (3, 30)], 3, Term.complete⟩).term = Term.error "boom" ∧
    (mergeT (⟨[(1, 10)], 2, Term.error "boom"⟩ : FinTrace String Nat)
        ⟨[(1, 20), (3, 30)], 3, Term.complete⟩).tTerm = 2 ∧
    ∀ x ∈ (mergeT (⟨[(1, 10)], 2, Term.error "boom"⟩ : FinTrace String Nat)
        ⟨[(1, 20), (3, 30)], 3, Term.complete⟩).vals,
      x ∈ [((1 : Nat), (10 : Nat))] ∨ (x ∈ [((1 : Nat), (20 : Nat)), (3, 30)] ∧ x.1 < 2) := by
  have h := (c5_merge (⟨[(1, 10)], 2, Term.error "boom"⟩ : FinTrace String Nat)
    ⟨[(1, 20), (3, 30)], 3, Term.complete⟩).2.1 "boom" rfl rfl
  exact ⟨rfl, rfl, h.1, h.2.1, h.2.2⟩

/-- Callbacks produced from values are never terminal. -/
theorem countP_map_onNext (vs : List (Nat × α)) :
    (vs.map (fun x => (CB.onNext x.2 : CB ε α))).countP (fun c => c.isTerminal) = 0 := by
  induction vs with
  | nil => rfl
  | cons v vs ih => simp [List.countP_cons, CB.isTerminal, ih]

/-- C7: on every subscription trace exactly one terminal callback fires; it
is the last callback delivered, every callback before it is an onNext, and
onError and onComplete are mutually exclusive. -/
theorem c7_terminal (S : FinTrace ε α) :
    (deliver S).countP (fun c => c.isTerminal) = 1 ∧
    (∀ c ∈ (deliver S).dropLast, c.isTerminal = false) ∧
    (∃ c, (deliver S).getLast? = some c ∧ c.isTerminal = true) ∧
    (CB.onComplete ∈ deliver S → ∀ e, CB.onError e ∉ deliver S) := by
  obtain ⟨vs, t, term⟩ := S
  refine ⟨?_, ?_, ?_, ?_⟩
  · cases term <;>
      simp [deliver, List.countP_append, countP_map_onNext, List.countP_cons,
        CB.isTerminal]
  · intro c hc
    cases term with
    | complete =>
      rw [show deliver (⟨vs, t, Term.complete⟩ : FinTrace ε α) =
          vs.map (fun x => CB.onNext x.2) ++ [CB.onComplete] from rfl,
        List.dropLast_concat] at hc
      obtain ⟨x, _, rfl⟩ := List.mem_map.1 hc
      rfl
    | error e =>
      rw [show deliver (⟨vs, t, Term.error e⟩ : FinTrace ε α) =
          vs.map (fun x => CB.onNext x.2) ++ [CB.onError e] from rfl,
        List.dropLast_concat] at hc
      obtain ⟨x, _, rfl⟩ := List.mem_map.1 hc
      rfl
  · cases term with
    | complete => exact ⟨CB.onComplete, List.getLast?_concat _, rfl⟩
    | error e => exact ⟨CB.onError e, List.getLast?_concat _, rfl⟩
  · intro hc e he
    cases term with
    | complete =>
      simp only [deliver, List.mem_append, List.mem_map, List.mem_singleton] at he
      rcases he with ⟨x, _, hx⟩ | hx <;> cases hx
    | error e' =>
      simp only [deliver, List.mem_append, List.mem_map, List.mem_singleton] at hc
      rcases hc with ⟨x, _, hx⟩ | hx <;> cases hx

/-- C7 witness: the trace that emits 5 and completes has exactly one
terminal callback, and since onComplete fires, no onError ever fires. -/
theorem c7_terminal_witness :
    (deliver (⟨[(0, 5)], 0, Term.complete⟩ : FinTrace String Nat)).countP
        (fun c => c.isTerminal) = 1 ∧
    CB.onError "boom" ∉ deliver (⟨[(0, 5)], 0, Term.complete⟩ : FinTrace String Nat) :=
  ⟨(c7_terminal ⟨[(0, 5)], 0, Term.complete⟩).1,
    (c7_terminal ⟨[(0, 5)], 0, Term.complete⟩).2.2.2 (by decide) "boom"⟩

/-- C6 (amended): the merge demo delivers exactly 4 values, at the 500,
1000, 1000 and 2000 ms marks in time order (the 1000 ms tick carries one
value from each inner stream), and completes at 2000 ms, only once both
inner streams have completed (the slower at 2000 ms, the faster at
1000 ms). -/
theorem c6_mergeDemo :
    mergeDemo.vals = [(500, 0), (1000, 0), (1000, 1), (2000, 1)] ∧
    mergeDemo.term = Term.complete ∧
    mergeDemo.tTerm = 2000 ∧
    (takeT (intervalTr 1000 : RTrace String Nat) 2).term = Term.complete ∧
    (takeT (intervalTr 1000 : RTrace String Nat) 2).tTerm = 2000 ∧
    (takeT (intervalTr 500 : RTrace String Nat) 2).term = Term.complete ∧
    (takeT (intervalTr 500 : RTrace String Nat) 2).tTerm = 1000 := by
  refine ⟨?_, ?_, ?_, ?_, ?_, ?_, ?_⟩ <;> decide

end RxDemo
